import Mathlib

/-!
Verification of the `cplx` library: a Cayley-Dickson doubling construction
parameterized by a per-level generator-sign tag, together with the
general-signature basis-blade product described by the design document.

The Rust source (`src/lib.rs`) is generic over a base ring `A` given by
operator traits (`Add`, `Neg`, `Sub`, `Mul`, `Div`, `Zero`, `One`,
`Conjugable`).  We embed that parameterization as a bundled record of
operations `Ops A`; each operation on the doubled pair uses exactly the
fields corresponding to the trait bounds of the matching `impl`.
Machine-integer instances (`isize`, `i64`, ...) are embedded as `Int`; all
concrete test values used below are far from any overflow boundary.
-/

namespace Cplx

/-- The generator-sign tags: the `typenum` type-level integers `P1`, `N1`,
`Z0` for which the source implements the `Sign` trait. -/
inductive Sign where
  | P1
  | N1
  | Z0
deriving DecidableEq

/-- Bundled ring operations standing for the operator traits the source
requires of the base type `A`. -/
structure Ops (A : Type) where
  add : A → A → A
  neg : A → A
  sub : A → A → A
  mul : A → A → A
  div : A → A → A
  zero : A
  one : A
  conjugate : A → A

/-- The `Sign` trait (src/lib.rs lines 18-21): `P1` is the identity,
`N1` negates, `Z0` sends every value to the ring's zero. -/
def Sign.sign {A : Type} (ops : Ops A) : Sign → A → A
  | .P1, a => a
  | .N1, a => ops.neg a
  | .Z0, _ => ops.zero

/-- `Complex<A, S>` (src/lib.rs line 25): an ordered pair over the base
ring.  The tag `S` is a phantom type parameter in the source (it appears
only inside `PhantomData`), so the pair itself carries no tag; the tag is
instead passed to the operations that consult it (`mul`, `div`). -/
structure Complex (A : Type) where
  re : A
  im : A
deriving DecidableEq

/-- `Complex::from_rect` (src/lib.rs line 28). -/
def Complex.from_rect {A : Type} (re im : A) : Complex A := ⟨re, im⟩

/-- `Complex::into_rect` (src/lib.rs lines 29-34): the `union` trick there
is a `const fn` workaround that reads the two fields back out; semantically
it returns the pair of components. -/
def Complex.into_rect {A : Type} (x : Complex A) : A × A := (x.re, x.im)

/-- `impl Add for Complex` (src/lib.rs lines 88-94). -/
def Complex.add {A : Type} (ops : Ops A) (x y : Complex A) : Complex A :=
  ⟨ops.add x.re y.re, ops.add x.im y.im⟩

/-- `impl Sub for Complex` (src/lib.rs lines 96-102). -/
def Complex.sub {A : Type} (ops : Ops A) (x y : Complex A) : Complex A :=
  ⟨ops.sub x.re y.re, ops.sub x.im y.im⟩

/-- `impl Neg for Complex` (src/lib.rs lines 104-110). -/
def Complex.neg {A : Type} (ops : Ops A) (x : Complex A) : Complex A :=
  ⟨ops.neg x.re, ops.neg x.im⟩

/-- `impl Conjugable for Complex` (src/lib.rs lines 75-80):
`conjugate (a, b) = (conjugate a, -b)`. -/
def Complex.conjugate {A : Type} (ops : Ops A) (x : Complex A) : Complex A :=
  ⟨ops.conjugate x.re, ops.neg x.im⟩

/-- `impl Mul for Complex` (src/lib.rs lines 112-118):
`(a,b)*(c,d) = (a*c + S::sign(d.conjugate()*b), d*a + b*c.conjugate())`. -/
def Complex.mul {A : Type} (ops : Ops A) (S : Sign) (x y : Complex A) : Complex A :=
  ⟨ops.add (ops.mul x.re y.re) (S.sign ops (ops.mul (ops.conjugate y.im) x.im)),
   ops.add (ops.mul y.im x.re) (ops.mul x.im (ops.conjugate y.re))⟩

/-- `impl Div for Complex` (src/lib.rs lines 120-129): both components of
`self * other.conjugate()` are divided by the real component of
`other * other.conjugate()`; no check of any kind is performed. -/
def Complex.div {A : Type} (ops : Ops A) (S : Sign) (x y : Complex A) : Complex A :=
  ⟨ops.div (Complex.mul ops S x (Complex.conjugate ops y)).re
           (Complex.mul ops S y (Complex.conjugate ops y)).re,
   ops.div (Complex.mul ops S x (Complex.conjugate ops y)).im
           (Complex.mul ops S y (Complex.conjugate ops y)).re⟩

/-- `impl Zero for Complex` (src/lib.rs lines 50-52). -/
def Complex.zero {A : Type} (ops : Ops A) : Complex A := ⟨ops.zero, ops.zero⟩

/-- `impl One for Complex` (src/lib.rs lines 54-56). -/
def Complex.one {A : Type} (ops : Ops A) : Complex A := ⟨ops.one, ops.zero⟩

/-- `impl From<A> for Complex` (src/lib.rs lines 67-69):
`from(x) = from_rect(x, Z0::sign(x))`. -/
def Complex.fromScalar {A : Type} (ops : Ops A) (x : A) : Complex A :=
  ⟨x, Sign.sign ops .Z0 x⟩

/-- The operations of the doubled type, assembled from the base ring's
operations and the level's tag: this is what feeds one `Complex` level into
the next when the construction is iterated (complex → quaternion → ...). -/
def complexOps {A : Type} (ops : Ops A) (S : Sign) : Ops (Complex A) where
  add := Complex.add ops
  neg := Complex.neg ops
  sub := Complex.sub ops
  mul := Complex.mul ops S
  div := Complex.div ops S
  zero := Complex.zero ops
  one := Complex.one ops
  conjugate := Complex.conjugate ops

/-- `SelfConjugate<A>` (src/lib.rs lines 134-136): the opacity wrapper. -/
structure SelfConjugate (A : Type) where
  val : A
deriving DecidableEq

/-- `impl Conjugable for SelfConjugate` (src/lib.rs lines 138-141):
conjugation is the identity, regardless of `A`. -/
def SelfConjugate.conjugate {A : Type} (x : SelfConjugate A) : SelfConjugate A := x

/-- The base integer ring (the source's `impl_Conjugable_id!` makes
conjugation the identity on the primitive integer types, lines 82-86;
the remaining operators are the machine ones, embedded over `Int`). -/
def intOps : Ops Int where
  add := fun x y => x + y
  neg := fun x => -x
  sub := fun x y => x - y
  mul := fun x y => x * y
  div := fun x y => x / y
  zero := 0
  one := 1
  conjugate := fun x => x

/-- Modelled from the spec: the signature of a general-signature algebra
(spec section 3/4.3) — total generator count, how many generators are
negative-type and how many positive-type; the rest are null.  The code of
the basis-blade product is not under `src/`, so this component group is
reconstructed from the design document. -/
structure Signature where
  total : Nat
  negCount : Nat
  posCount : Nat
deriving DecidableEq

/-- Modelled from the spec: the mask of the first `negCount` (negative-type)
generators, used for the signature-parity contribution (spec section 4.3
step 1). -/
def negMask (s : Signature) : Nat := 2 ^ s.negCount - 1

/-- Modelled from the spec: the mask of the generators beyond index
`negCount + posCount` — the null generators (spec section 4.3 step 1). -/
def nullMask (s : Signature) : Nat := 2 ^ s.total - 2 ^ (s.negCount + s.posCount)

/-- Modelled from the spec: population count of a bitmask, via its binary
digits.  The fuel argument makes the recursion structural, so concrete
values reduce inside the kernel; `popCountFuel f v` agrees with the
fuel-free recursion whenever `v ≤ f`. -/
def popCountFuel : Nat → Nat → Nat
  | 0, _ => 0
  | f + 1, v => if v = 0 then 0 else v % 2 + popCountFuel f (v / 2)

/-- Modelled from the spec: `popCount n` is the number of set bits of `n`. -/
def popCount (n : Nat) : Nat := popCountFuel n n

theorem popCountFuel_eq_of_le :
    ∀ f g v : Nat, v ≤ f → v ≤ g → popCountFuel f v = popCountFuel g v := by
  intro f
  induction f with
  | zero =>
    intro g v hf hg
    have hv : v = 0 := Nat.le_zero.mp hf
    subst hv
    cases g <;> simp [popCountFuel]
  | succ f ih =>
    intro g v hf hg
    cases g with
    | zero =>
      have hv : v = 0 := Nat.le_zero.mp hg
      subst hv
      simp [popCountFuel]
    | succ g =>
      by_cases hv : v = 0
      · subst hv; simp [popCountFuel]
      · simp only [popCountFuel, if_neg hv]
        rw [ih g (v / 2) (by omega) (by omega)]

theorem popCount_eq (n : Nat) :
    popCount n = if n = 0 then 0 else n % 2 + popCount (n / 2) := by
  cases n with
  | zero => simp [popCount, popCountFuel]
  | succ m =>
    have h1 : (m + 1) / 2 ≤ m := by omega
    show popCountFuel (m + 1) (m + 1) = _
    rw [popCountFuel]
    rw [if_neg (Nat.succ_ne_zero m), if_neg (Nat.succ_ne_zero m)]
    rw [popCountFuel_eq_of_le m ((m + 1) / 2) ((m + 1) / 2) h1 (Nat.le_refl _)]
    rfl

/-- Modelled from the spec: the interleaving (merge-transposition) count of
spec section 4.3 step 4, again with structural fuel.  The generators of
blade `j` are processed from lowest to highest; at each generator of `j`
the bits of each operand lying above it are counted.  (Cancelling an
already-processed common generator out of `i`, as the spec words it, does
not change any later "bits above" count, since only lower positions are
ever removed; so `i` is simply shifted along.) -/
def interleaveFuel : Nat → Nat → Nat → Nat
  | 0, _, _ => 0
  | f + 1, i, j =>
      if j = 0 then 0
      else (if j % 2 = 1 then popCount (i / 2) + popCount (j / 2) else 0)
        + interleaveFuel f (i / 2) (j / 2)

/-- Modelled from the spec: the interleaving count of blades `i` and `j`. -/
def interleave (i j : Nat) : Nat := interleaveFuel j i j

theorem interleaveFuel_eq_of_le :
    ∀ f g i j : Nat, j ≤ f → j ≤ g → interleaveFuel f i j = interleaveFuel g i j := by
  intro f
  induction f with
  | zero =>
    intro g i j hf hg
    have hj : j = 0 := Nat.le_zero.mp hf
    subst hj
    cases g <;> simp [interleaveFuel]
  | succ f ih =>
    intro g i j hf hg
    cases g with
    | zero =>
      have hj : j = 0 := Nat.le_zero.mp hg
      subst hj
      simp [interleaveFuel]
    | succ g =>
      by_cases hj : j = 0
      · subst hj; simp [interleaveFuel]
      · simp only [interleaveFuel, if_neg hj]
        rw [ih g (i / 2) (j / 2) (by omega) (by omega)]

theorem interleave_eq (i j : Nat) :
    interleave i j =
      if j = 0 then 0
      else (if j % 2 = 1 then popCount (i / 2) + popCount (j / 2) else 0)
        + interleave (i / 2) (j / 2) := by
  cases j with
  | zero => simp [interleave, interleaveFuel]
  | succ m =>
    show interleaveFuel (m + 1) i (m + 1) = _
    rw [interleaveFuel]
    rw [if_neg (Nat.succ_ne_zero m), if_neg (Nat.succ_ne_zero m)]
    rw [interleaveFuel_eq_of_le m ((m + 1) / 2) (i / 2) ((m + 1) / 2) (by omega) (Nat.le_refl _)]
    rfl

/-- Merging the empty blade with blade `j` costs exactly `C(popcount j, 2)`
transpositions: every set bit of `j` contributes the number of set bits of
`j` above it. -/
theorem interleave_zero_left (j : Nat) :
    interleave 0 j = Nat.choose (popCount j) 2 := by
  induction j using Nat.strong_induction_on with
  | _ j ih =>
    by_cases hj : j = 0
    · subst hj
      simp [interleave, interleaveFuel, popCount, popCountFuel]
    · rw [interleave_eq, if_neg hj, popCount_eq j, if_neg hj]
      have hlt : j / 2 < j := Nat.div_lt_self (Nat.pos_of_ne_zero hj) (by omega)
      rw [ih (j / 2) hlt]
      have h0 : (0 : Nat) / 2 = 0 := rfl
      rw [h0]
      have hpc0 : popCount 0 = 0 := rfl
      rw [hpc0]
      rcases Nat.mod_two_eq_zero_or_one j with he | ho
      · rw [he]
        simp
      · rw [ho, if_pos rfl]
        have : (1 + popCount (j / 2)) = popCount (j / 2) + 1 := Nat.add_comm _ _
        rw [this, Nat.choose_succ_succ' (popCount (j / 2)) 1, Nat.choose_one_right]
        norm_num

/-- Merging a blade with itself costs an even number of transpositions:
each common generator contributes the same count on both sides. -/
theorem interleave_self_even (i : Nat) : interleave i i % 2 = 0 := by
  induction i using Nat.strong_induction_on with
  | _ i ih =>
    by_cases hi : i = 0
    · subst hi; simp [interleave, interleaveFuel]
    · rw [interleave_eq, if_neg hi]
      have hlt : i / 2 < i := Nat.div_lt_self (Nat.pos_of_ne_zero hi) (by omega)
      have h2 := ih (i / 2) hlt
      rcases Nat.mod_two_eq_zero_or_one i with he | ho
      · rw [he]; simpa using h2
      · rw [ho, if_pos rfl]
        omega

/-- The parity of `C(k, 2)` depends only on `k mod 4`: it is odd exactly
when `k mod 4` is `2` or `3` — i.e. exactly when bit 1 of `k` is set. -/
theorem choose_two_parity :
    ∀ k : Nat, Nat.choose k 2 % 2 = if 2 ≤ k % 4 then 1 else 0 := by
  intro k
  induction k using Nat.strong_induction_on with
  | _ k ih =>
    match k with
    | 0 => simp [Nat.choose]
    | 1 => simp [Nat.choose]
    | 2 => simp [Nat.choose]
    | 3 => simp [Nat.choose]
    | m + 4 =>
      have h := ih m (by omega)
      have e : Nat.choose (m + 4) 2 = Nat.choose m 2 + (4 * m + 6) := by
        simp [Nat.choose_succ_succ, Nat.choose_one_right]
        omega
      have e4 : (m + 4) % 4 = m % 4 := by omega
      rw [e, e4]
      rcases Nat.lt_or_ge (m % 4) 2 with hlt | hge
      · rw [if_neg (by omega)] at h
        rw [if_neg (by omega)]
        omega
      · rw [if_pos hge] at h
        rw [if_pos hge]
        omega

/-- Modelled from the spec: the signature-parity contribution — one sign
flip per negative-type generator squared away (spec section 4.3 step 4). -/
def sigParity (s : Signature) (i j : Nat) : Bool :=
  decide (popCount (i &&& j &&& negMask s) % 2 = 1)

/-- Modelled from the spec: the reversal-parity contribution — the
popcount of `j` taken mod 4, tested against bit 2 (spec section 4.3
step 4). -/
def revParity (j : Nat) : Bool :=
  decide (2 ≤ popCount j % 4)

/-- Modelled from the spec: the interleaving-parity contribution (spec
section 4.3 step 4). -/
def mergeParity (i j : Nat) : Bool :=
  decide (interleave i j % 2 = 1)

/-- Modelled from the spec: the basis-blade product (spec section 4.3).
If a null generator appears in both operands the product is annihilated;
otherwise the result blade is `i XOR j` and the sign is negative exactly
when the XOR of the three parity contributions is odd (`true` stands for
a negative sign). -/
def bladeMul (s : Signature) (i j : Nat) : Option (Bool × Nat) :=
  if i &&& j &&& nullMask s ≠ 0 then none
  else some (Bool.xor (sigParity s i j) (Bool.xor (revParity j) (mergeParity i j)), i ^^^ j)

/-- The ring-with-conjugation laws under which one Cayley-Dickson doubling
step is well behaved, and which the doubling step itself preserves — this
is what lets conjugation facts proved for one level propagate to every
deeper level (quaternions, octonions, ...). -/
structure StarPkg {A : Type} (ops : Ops A) : Prop where
  add_comm : ∀ x y, ops.add x y = ops.add y x
  neg_add : ∀ x y, ops.neg (ops.add x y) = ops.add (ops.neg x) (ops.neg y)
  neg_neg : ∀ x, ops.neg (ops.neg x) = x
  neg_zero : ops.neg ops.zero = ops.zero
  mul_neg : ∀ x y, ops.mul x (ops.neg y) = ops.neg (ops.mul x y)
  neg_mul : ∀ x y, ops.mul (ops.neg x) y = ops.neg (ops.mul x y)
  conj_add : ∀ x y, ops.conjugate (ops.add x y) = ops.add (ops.conjugate x) (ops.conjugate y)
  conj_mul : ∀ x y, ops.conjugate (ops.mul x y) = ops.mul (ops.conjugate y) (ops.conjugate x)
  conj_conj : ∀ x, ops.conjugate (ops.conjugate x) = x
  conj_neg : ∀ x, ops.conjugate (ops.neg x) = ops.neg (ops.conjugate x)
  conj_zero : ops.conjugate ops.zero = ops.zero

theorem sign_neg {A : Type} {ops : Ops A} (h : StarPkg ops) (S : Sign) (z : A) :
    S.sign ops (ops.neg z) = ops.neg (S.sign ops z) := by
  cases S <;> simp [Sign.sign, h.neg_zero]

theorem conj_sign {A : Type} {ops : Ops A} (h : StarPkg ops) (S : Sign) (z : A) :
    ops.conjugate (S.sign ops z) = S.sign ops (ops.conjugate z) := by
  cases S <;> simp [Sign.sign, h.conj_neg, h.conj_zero]

/-- One doubling step preserves the law package, whatever tag it uses. -/
theorem starPkg_complexOps {A : Type} {ops : Ops A} (h : StarPkg ops) (S : Sign) :
    StarPkg (complexOps ops S) := by
  constructor
  case add_comm =>
    intro x y
    simp [complexOps, Complex.add, Complex.mk.injEq, h.add_comm x.re, h.add_comm x.im]
  case neg_add =>
    intro x y
    simp [complexOps, Complex.add, Complex.neg, h.neg_add]
  case neg_neg =>
    intro x
    simp [complexOps, Complex.neg, h.neg_neg]
  case neg_zero =>
    simp [complexOps, Complex.neg, Complex.zero, h.neg_zero]
  case mul_neg =>
    intro x y
    simp [complexOps, Complex.mul, Complex.neg, Complex.mk.injEq,
      h.mul_neg, h.neg_mul, h.conj_neg, sign_neg h, h.neg_add]
  case neg_mul =>
    intro x y
    simp [complexOps, Complex.mul, Complex.neg, Complex.mk.injEq,
      h.mul_neg, h.neg_mul, sign_neg h, h.neg_add]
  case conj_add =>
    intro x y
    simp [complexOps, Complex.add, Complex.conjugate, h.conj_add, h.neg_add]
  case conj_mul =>
    intro x y
    simp only [complexOps, Complex.mul, Complex.conjugate, Complex.mk.injEq]
    constructor
    · rw [h.conj_add, h.conj_mul, conj_sign h, h.conj_mul, h.conj_conj,
        h.conj_neg, h.neg_mul, h.mul_neg, h.neg_neg]
    · rw [h.neg_add, h.conj_conj]
      simp only [h.neg_mul]
      exact h.add_comm _ _
  case conj_conj =>
    intro x
    simp [complexOps, Complex.conjugate, h.conj_conj, h.neg_neg]
  case conj_neg =>
    intro x
    simp [complexOps, Complex.conjugate, Complex.neg, h.conj_neg]
  case conj_zero =>
    simp [complexOps, Complex.conjugate, Complex.zero, h.conj_zero, h.neg_zero]

/-- The integer base ring satisfies the law package. -/
theorem starPkg_int : StarPkg intOps := by
  constructor <;> intros <;> simp only [intOps] <;> ring

end Cplx

namespace Cplx

/-- C1: for every generator-sign tag `S` and all pairs `(a,b)`, `(c,d)`
over any base ring, the Cayley-Dickson product is
`(a*c + S::sign(conjugate(d)*b), d*a + b*conjugate(c))`. -/
theorem mul_is_cayley_dickson_formula {A : Type} (ops : Ops A) (S : Sign)
    (a b c d : A) :
    Complex.mul ops S ⟨a, b⟩ ⟨c, d⟩ =
      ⟨ops.add (ops.mul a c) (S.sign ops (ops.mul (ops.conjugate d) b)),
       ops.add (ops.mul d a) (ops.mul b (ops.conjugate c))⟩ := rfl

/-- C2: the generator-sign resolver is total and satisfies, for every ring
value `x`: `N1` (Negative) returns `-x`, `P1` (Positive) returns `x`,
`Z0` (Null) returns the ring's zero. -/
theorem sign_resolver_total {A : Type} (ops : Ops A) (x : A) :
    Sign.sign ops .N1 x = ops.neg x ∧
    Sign.sign ops .P1 x = x ∧
    Sign.sign ops .Z0 x = ops.zero :=
  ⟨rfl, rfl, rfl⟩

/-- C3: when the norm `b * conjugate b` lands on the scalar slot (its
imaginary component is zero), `b * conjugate b` is the embedded scalar of
its real component, and the quotient `a / b` is `a * conjugate b` with both
components divided by that scalar; the division formula itself holds
unconditionally — no runtime check is performed. -/
theorem div_is_conjugate_formula {A : Type} (ops : Ops A) (S : Sign)
    (a b : Complex A)
    (h : (Complex.mul ops S b (Complex.conjugate ops b)).im = ops.zero) :
    Complex.mul ops S b (Complex.conjugate ops b) =
      Complex.fromScalar ops (Complex.mul ops S b (Complex.conjugate ops b)).re ∧
    Complex.div ops S a b =
      ⟨ops.div (Complex.mul ops S a (Complex.conjugate ops b)).re
               (Complex.mul ops S b (Complex.conjugate ops b)).re,
       ops.div (Complex.mul ops S a (Complex.conjugate ops b)).im
               (Complex.mul ops S b (Complex.conjugate ops b)).re⟩ := by
  refine ⟨?_, rfl⟩
  cases hb : Complex.mul ops S b (Complex.conjugate ops b) with
  | mk r i =>
      have : i = ops.zero := by rw [hb] at h; exact h
      simp [Complex.fromScalar, Sign.sign, this]

/-- Witness for C3 at a concrete input: over `Int` with the elliptic tag,
`b = (0,1)` has norm `(1,0)` (imaginary part zero), and
`(1,2) / (0,1) = (2,-1)`. -/
theorem div_is_conjugate_formula_witness :
    (Complex.mul intOps .N1 ⟨0, 1⟩ (Complex.conjugate intOps ⟨0, 1⟩)).im = intOps.zero ∧
    Complex.mul intOps .N1 (⟨0, 1⟩ : Complex Int) (Complex.conjugate intOps ⟨0, 1⟩) =
      Complex.fromScalar intOps
        (Complex.mul intOps .N1 (⟨0, 1⟩ : Complex Int) (Complex.conjugate intOps ⟨0, 1⟩)).re ∧
    Complex.div intOps .N1 (⟨1, 2⟩ : Complex Int) ⟨0, 1⟩ =
      ⟨intOps.div (Complex.mul intOps .N1 (⟨1, 2⟩ : Complex Int) (Complex.conjugate intOps ⟨0, 1⟩)).re
                  (Complex.mul intOps .N1 (⟨0, 1⟩ : Complex Int) (Complex.conjugate intOps ⟨0, 1⟩)).re,
       intOps.div (Complex.mul intOps .N1 (⟨1, 2⟩ : Complex Int) (Complex.conjugate intOps ⟨0, 1⟩)).im
                  (Complex.mul intOps .N1 (⟨0, 1⟩ : Complex Int) (Complex.conjugate intOps ⟨0, 1⟩)).re⟩ :=
  ⟨by decide,
   div_is_conjugate_formula intOps .N1 ⟨1, 2⟩ ⟨0, 1⟩ (by decide)⟩

/-- C4: over the integers, `i = (0,1)` squares according to the level's
tag: `(-1,0)` under `N1`, `(1,0)` under `P1`, `(0,0)` under `Z0` —
the source's tests `complex_basis`, `split_complex_basis`, `dual_basis`. -/
theorem imaginary_unit_squares :
    Complex.mul intOps .N1 (⟨0, 1⟩ : Complex Int) ⟨0, 1⟩ = ⟨-1, 0⟩ ∧
    Complex.mul intOps .P1 (⟨0, 1⟩ : Complex Int) ⟨0, 1⟩ = ⟨1, 0⟩ ∧
    Complex.mul intOps .Z0 (⟨0, 1⟩ : Complex Int) ⟨0, 1⟩ = ⟨0, 0⟩ := by
  decide

/-- C5: in the quaternions — the `N1` doubling of the `N1` doubling of the
integers — the units `i = ((0,1),(0,0))`, `j = ((0,0),(1,0))`,
`k = ((0,0),(0,1))` satisfy `i*j = k`, `j*k = i`, `k*i = j`, `k*j = -i`,
`j*i = -k`, `i*k = -j` and `i*i = j*j = k*k = -1` (the source's
`quaternion_basis` test). -/
theorem quaternion_basis :
    Complex.mul (complexOps intOps .N1) .N1 (⟨⟨0, 1⟩, ⟨0, 0⟩⟩ : Complex (Complex Int))
        ⟨⟨0, 0⟩, ⟨1, 0⟩⟩ = ⟨⟨0, 0⟩, ⟨0, 1⟩⟩ ∧
    Complex.mul (complexOps intOps .N1) .N1 (⟨⟨0, 0⟩, ⟨1, 0⟩⟩ : Complex (Complex Int))
        ⟨⟨0, 0⟩, ⟨0, 1⟩⟩ = ⟨⟨0, 1⟩, ⟨0, 0⟩⟩ ∧
    Complex.mul (complexOps intOps .N1) .N1 (⟨⟨0, 0⟩, ⟨0, 1⟩⟩ : Complex (Complex Int))
        ⟨⟨0, 1⟩, ⟨0, 0⟩⟩ = ⟨⟨0, 0⟩, ⟨1, 0⟩⟩ ∧
    Complex.mul (complexOps intOps .N1) .N1 (⟨⟨0, 0⟩, ⟨0, 1⟩⟩ : Complex (Complex Int))
        ⟨⟨0, 0⟩, ⟨1, 0⟩⟩ = Complex.neg (complexOps intOps .N1) ⟨⟨0, 1⟩, ⟨0, 0⟩⟩ ∧
    Complex.mul (complexOps intOps .N1) .N1 (⟨⟨0, 0⟩, ⟨1, 0⟩⟩ : Complex (Complex Int))
        ⟨⟨0, 1⟩, ⟨0, 0⟩⟩ = Complex.neg (complexOps intOps .N1) ⟨⟨0, 0⟩, ⟨0, 1⟩⟩ ∧
    Complex.mul (complexOps intOps .N1) .N1 (⟨⟨0, 1⟩, ⟨0, 0⟩⟩ : Complex (Complex Int))
        ⟨⟨0, 0⟩, ⟨0, 1⟩⟩ = Complex.neg (complexOps intOps .N1) ⟨⟨0, 0⟩, ⟨1, 0⟩⟩ ∧
    Complex.mul (complexOps intOps .N1) .N1 (⟨⟨0, 1⟩, ⟨0, 0⟩⟩ : Complex (Complex Int))
        ⟨⟨0, 1⟩, ⟨0, 0⟩⟩ = Complex.neg (complexOps intOps .N1) (Complex.one (complexOps intOps .N1)) ∧
    Complex.mul (complexOps intOps .N1) .N1 (⟨⟨0, 0⟩, ⟨1, 0⟩⟩ : Complex (Complex Int))
        ⟨⟨0, 0⟩, ⟨1, 0⟩⟩ = Complex.neg (complexOps intOps .N1) (Complex.one (complexOps intOps .N1)) ∧
    Complex.mul (complexOps intOps .N1) .N1 (⟨⟨0, 0⟩, ⟨0, 1⟩⟩ : Complex (Complex Int))
        ⟨⟨0, 0⟩, ⟨0, 1⟩⟩ = Complex.neg (complexOps intOps .N1) (Complex.one (complexOps intOps .N1)) := by
  decide

/-- C7: conjugation is an involution — on any doubled pair whose base
conjugation and base negation are involutions, and on every
opacity-wrapped value, whose conjugate is moreover the wrapped value
itself regardless of the inner type. -/
theorem conjugate_involution {A : Type} (ops : Ops A)
    (hconj : ∀ x, ops.conjugate (ops.conjugate x) = x)
    (hneg : ∀ x, ops.neg (ops.neg x) = x) :
    (∀ z : Complex A, Complex.conjugate ops (Complex.conjugate ops z) = z) ∧
    (∀ (B : Type) (w : SelfConjugate B), SelfConjugate.conjugate w = w) := by
  refine ⟨fun z => ?_, fun B w => rfl⟩
  cases z with
  | mk a b => simp [Complex.conjugate, hconj, hneg]

/-- Witness for C7 at a concrete input: the integer base ring has
involutive conjugation and negation, and `conjugate (conjugate (3, -5))`
is `(3, -5)`. -/
theorem conjugate_involution_witness :
    (∀ x : Int, intOps.conjugate (intOps.conjugate x) = x) ∧
    (∀ x : Int, intOps.neg (intOps.neg x) = x) ∧
    Complex.conjugate intOps (Complex.conjugate intOps ⟨3, -5⟩) = (⟨3, -5⟩ : Complex Int) ∧
    SelfConjugate.conjugate ⟨(7 : Int)⟩ = (⟨7⟩ : SelfConjugate Int) :=
  ⟨fun x => rfl, fun x => Int.neg_neg x,
   (conjugate_involution intOps (fun x => rfl) (fun x => Int.neg_neg x)).1 ⟨3, -5⟩,
   (conjugate_involution intOps (fun x => rfl) (fun x => Int.neg_neg x)).2 Int ⟨7⟩⟩

/-- C10: over a base ring with commutative multiplication and identity
conjugation (plus the ring facts that negation passes through products and
that a value plus its negation is zero), the imaginary component of
`x * conjugate x` is zero for every tag `S`: the norm lands entirely on
the scalar slot, which is why dividing both components by only the real
component of `b * conjugate b` (as `Div` does) agrees with the spec's
division formula. -/
theorem norm_lands_on_scalar_slot {A : Type} (ops : Ops A)
    (hcomm : ∀ x y, ops.mul x y = ops.mul y x)
    (hid : ∀ x, ops.conjugate x = x)
    (hnegmul : ∀ x y, ops.mul (ops.neg x) y = ops.neg (ops.mul x y))
    (haddneg : ∀ x, ops.add (ops.neg x) x = ops.zero)
    (S : Sign) (x : Complex A) :
    (Complex.mul ops S x (Complex.conjugate ops x)).im = ops.zero := by
  cases x with
  | mk a b =>
      simp only [Complex.mul, Complex.conjugate, hid, hnegmul, haddneg]

/-- Witness for C10 at a concrete input: the integer ring satisfies the
hypotheses, and `(2,3) * conjugate (2,3)` has imaginary part `0` under the
elliptic tag. -/
theorem norm_lands_on_scalar_slot_witness :
    (∀ x y : Int, intOps.mul x y = intOps.mul y x) ∧
    (∀ x : Int, intOps.conjugate x = x) ∧
    (∀ x y : Int, intOps.mul (intOps.neg x) y = intOps.neg (intOps.mul x y)) ∧
    (∀ x : Int, intOps.add (intOps.neg x) x = intOps.zero) ∧
    (Complex.mul intOps .N1 (⟨2, 3⟩ : Complex Int) (Complex.conjugate intOps ⟨2, 3⟩)).im
      = intOps.zero :=
  ⟨fun x y => Int.mul_comm x y, fun x => rfl,
   fun x y => Int.neg_mul x y, fun x => Int.add_left_neg x,
   norm_lands_on_scalar_slot intOps (fun x y => Int.mul_comm x y) (fun x => rfl)
     (fun x y => Int.neg_mul x y) (fun x => Int.add_left_neg x) .N1 ⟨2, 3⟩⟩

/-- C6: at quaternion level and deeper — on `Complex (Complex A)` for any
base ring `A` satisfying the star-ring law package, hence also when `A` is
itself an iterated doubling — conjugation is an anti-automorphism of
multiplication: `conjugate (a*b) = conjugate b * conjugate a`, for every
choice of inner and outer tags. -/
theorem conjugate_antiautomorphism {A : Type} (ops : Ops A) (h : StarPkg ops)
    (S1 S2 : Sign) (x y : Complex (Complex A)) :
    Complex.conjugate (complexOps ops S1)
        (Complex.mul (complexOps ops S1) S2 x y) =
      Complex.mul (complexOps ops S1) S2
        (Complex.conjugate (complexOps ops S1) y)
        (Complex.conjugate (complexOps ops S1) x) :=
  (starPkg_complexOps (starPkg_complexOps h S1) S2).conj_mul x y

/-- Witness for C6 at a concrete input: the integer base ring satisfies
the law package, and for the concrete integer quaternions
`x = ((1,2),(3,4))`, `y = ((5,6),(7,8))` the anti-automorphism equation
holds. -/
theorem conjugate_antiautomorphism_witness :
    StarPkg intOps ∧
    Complex.conjugate (complexOps intOps .N1)
        (Complex.mul (complexOps intOps .N1) .N1
          (⟨⟨1, 2⟩, ⟨3, 4⟩⟩ : Complex (Complex Int)) ⟨⟨5, 6⟩, ⟨7, 8⟩⟩) =
      Complex.mul (complexOps intOps .N1) .N1
        (Complex.conjugate (complexOps intOps .N1) ⟨⟨5, 6⟩, ⟨7, 8⟩⟩)
        (Complex.conjugate (complexOps intOps .N1) ⟨⟨1, 2⟩, ⟨3, 4⟩⟩) :=
  ⟨starPkg_int,
   conjugate_antiautomorphism intOps starPkg_int .N1 .N1 ⟨⟨1, 2⟩, ⟨3, 4⟩⟩ ⟨⟨5, 6⟩, ⟨7, 8⟩⟩⟩

/-- C9 (amended): in the basis-blade product, for every signature and
every blade `j`, the scalar blade (index 0) times `j` is `j` with positive
sign; and for every blade `j` containing no null generator, `j * j` is
scalar-only with sign the XOR of the signature parity and the reversal
parity of `j` (the claim as stated omits the reversal-parity
contribution). -/
theorem blade_scalar_identity_and_self_square (s : Signature) (j : Nat) :
    bladeMul s 0 j = some (false, j) ∧
    (j &&& nullMask s = 0 →
      bladeMul s j j = some (Bool.xor (sigParity s j j) (revParity j), 0)) := by
  constructor
  · rw [bladeMul]
    rw [if_neg (by simp [Nat.zero_and])]
    have hsig : sigParity s 0 j = false := by
      simp [sigParity, Nat.zero_and, popCount, popCountFuel]
    have hmerge : mergeParity 0 j = revParity j := by
      rw [mergeParity, revParity, interleave_zero_left, choose_two_parity]
      rcases Nat.lt_or_ge (popCount j % 4) 2 with hlt | hge
      · rw [if_neg (by omega)]
        simp [decide_eq_false (by omega : ¬ 2 ≤ popCount j % 4)]
      · rw [if_pos hge]
        simp [decide_eq_true hge]
    rw [hsig, hmerge, Nat.zero_xor]
    cases revParity j <;> rfl
  · intro h
    rw [bladeMul]
    rw [if_neg (by simp [Nat.and_self, h])]
    have hmerge : mergeParity j j = false := by
      simp [mergeParity, interleave_self_even]
    rw [hmerge, Nat.xor_self]
    cases revParity j <;> cases sigParity s j j <;> rfl

/-- Witness for C9 at a concrete input: with signature `(3,1,1)` (one
negative, one positive, one null generator) the blade `3 = 0b011` contains
no null generator, and its self-product is the scalar blade with the
predicted sign. -/
theorem blade_scalar_identity_and_self_square_witness :
    3 &&& nullMask ⟨3, 1, 1⟩ = 0 ∧
    bladeMul ⟨3, 1, 1⟩ 3 3 =
      some (Bool.xor (sigParity ⟨3, 1, 1⟩ 3 3) (revParity 3), 0) :=
  ⟨by decide, (blade_scalar_identity_and_self_square ⟨3, 1, 1⟩ 3).2 (by decide)⟩

/-- Counterexample to C9 as stated: with signature `(2,0,2)` (two
positive generators, no negative, no null) the blade `3 = 0b011` contains
no null generator and its signature parity is even, yet its self-product
carries a negative sign — the sign is not determined purely by the
signature parity. -/
theorem blade_self_square_sign_cex :
    3 &&& nullMask ⟨2, 0, 2⟩ = 0 ∧
    sigParity ⟨2, 0, 2⟩ 3 3 = false ∧
    bladeMul ⟨2, 0, 2⟩ 3 3 = some (true, 0) ∧
    (bladeMul ⟨2, 0, 2⟩ 3 3).map Prod.fst ≠ some (sigParity ⟨2, 0, 2⟩ 3 3) := by
  decide

/-- C8: destructuring a freshly constructed pair returns its components:
`into_rect (from_rect a b) = (a, b)` for every tag `S` (the tag is a
phantom type parameter and does not influence the components). -/
theorem into_rect_from_rect {A : Type} (S : Sign) (a b : A) :
    Complex.into_rect (Complex.from_rect a b) = (a, b) := rfl

end Cplx
